import Mathlib

/-!
# Goblet — a caching Git smart-HTTP proxy: shallow embedding

A shallow embedding of the repository's core (handlers.go,
managed_repository.go and the two unnamed source files) sufficient to settle
the frozen claims.  Go strings are embedded as `List Char`; Go byte slices of
hashes as `List Nat`; external effects (the filesystem, the git subprocess,
the upstream HTTP host, goroutine scheduling) are passed in explicitly as
oracle values, and each Go function is translated statement by statement.
-/

/-- Go strings, embedded as lists of characters. -/
abbrev Str := List Char

/-- Literal helper: the characters of a Lean string literal. -/
def str (s : String) : Str := s.data

/-- Association-list lookup with decidable key equality (models a Go map
read `m[k]`, and `sync.Map.Load`). -/
def lookupStr {α : Type} : List (Str × α) → Str → Option α
  | [], _ => none
  | (k, v) :: rest, key => if k = key then some v else lookupStr rest key

/-- Association-list insert, overwriting an existing key (models a Go map
write `m[k] = v`). -/
def mapInsert {α : Type} : List (Str × α) → Str → α → List (Str × α)
  | [], k, v => [(k, v)]
  | (k2, v2) :: rest, k, v =>
      if k2 = k then (k, v) :: rest else (k2, v2) :: mapInsert rest k v

/-- Go `strings.HasSuffix(p, s)`. -/
def goHasSuffix (p s : Str) : Bool :=
  p.drop (p.length - s.length) == s

/-- Go `strings.TrimSuffix(p, s)`. -/
def goTrimSuffix (p s : Str) : Str :=
  if goHasSuffix p s then p.take (p.length - s.length) else p

/-- Go `strings.Contains(s, sub)`. -/
def goContains : Str → Str → Bool
  | [], sub => sub.isEmpty
  | c :: t, sub => sub.isPrefixOf (c :: t) || goContains t sub

/-- Go `strings.Split(s, sep)` for a one-character separator: splits at every
occurrence, never returns an empty list. -/
def goSplit (s : Str) (sep : Char) : List Str :=
  match s with
  | [] => [[]]
  | c :: rest =>
      match goSplit rest sep with
      | [] => [[c]]
      | h :: t => if c = sep then [] :: h :: t else (c :: h) :: t

/-- Go `strings.TrimSpace`: drops leading and trailing whitespace. -/
def goTrimSpace (s : Str) : Str :=
  ((s.dropWhile Char.isWhitespace).reverse.dropWhile Char.isWhitespace).reverse

/-- The patterns of the `strings.NewReplacer` in `stripGitSuffixes`, in
declaration order (each maps to the empty string). -/
def gitSuffixPatterns : List Str :=
  [str "/info/refs", str "/git-receive-pack", str "/git-upload-pack", str ".git"]

/-- Go `strings.NewReplacer(pats...).Replace` for non-empty patterns that all
map to the empty string: one left-to-right pass deleting every
non-overlapping occurrence of a pattern (earliest position first; at one
position, the first pattern of the list).  The recursion is indexed by a fuel
so the kernel can evaluate it; every pattern is non-empty, so with
`fuel = s.length` the zero-fuel bound is never reached. -/
def replaceAllGo (pats : List Str) : Nat → Str → Str
  | _, [] => []
  | 0, s => s
  | fuel + 1, c :: rest =>
      match pats.find? (fun p => p.isPrefixOf (c :: rest)) with
      | some p => replaceAllGo pats fuel ((c :: rest).drop p.length)
      | none => c :: replaceAllGo pats fuel rest

/-- `stripGitSuffixes` (managed_repository.go): the replacer deleting
`/info/refs`, `/git-receive-pack`, `/git-upload-pack` and `.git`
everywhere in the path. -/
def stripGitSuffixes (path : Str) : Str :=
  replaceAllGo gitSuffixPatterns path.length path

/-- After a character `prev`, drop each `/` directly following a `/`. -/
def collapseFrom (prev : Char) : Str → Str
  | [] => []
  | d :: t =>
      if prev = '/' ∧ d = '/' then collapseFrom prev t
      else d :: collapseFrom d t

/-- Collapse runs of `/` (the part of `filepath.Clean` exercised here). -/
def collapseSlashes : Str → Str
  | [] => []
  | c :: rest => c :: collapseFrom c rest

/-- Join with `/` separators (no cleaning). -/
def joinWithSlash : List Str → Str
  | [] => []
  | [p] => p
  | p :: q :: rest => p ++ '/' :: joinWithSlash (q :: rest)

/-- Go `filepath.Join`: drops empty elements, joins with `/`, and cleans.
The inputs arising in this program are slash-separated and contain no `.` or
`..` segments, so of `filepath.Clean` only the collapsing of repeated
slashes is exercised. -/
def goFilepathJoin (parts : List Str) : Str :=
  match parts.filter (fun p => !p.isEmpty) with
  | [] => []
  | ps => collapseSlashes (joinWithSlash ps)

/-- Go `url.URL` (the components this program touches; the zero value has
every component empty). -/
structure GoURL where
  scheme : Str := []
  user : Option Str := none
  host : Str := []
  path : Str := []
  rawQuery : Str := []
  fragment : Str := []
deriving DecidableEq

/-- `urlFixer` (managed_repository.go): fresh URL, scheme forced to `https`,
host and path copied, then one trailing `/info/refs`, `/git-receive-pack` or
`/git-upload-pack` trimmed (the `.git` trim is commented out in the source). -/
def urlFixer (u : GoURL) : GoURL :=
  let result : GoURL := { scheme := str "https", host := u.host, path := u.path }
  if goHasSuffix result.path (str "/info/refs") then
    { result with path := goTrimSuffix result.path (str "/info/refs") }
  else if goHasSuffix result.path (str "/git-receive-pack") then
    { result with path := goTrimSuffix result.path (str "/git-receive-pack") }
  else if goHasSuffix result.path (str "/git-upload-pack") then
    { result with path := goTrimSuffix result.path (str "/git-upload-pack") }
  else result

/-- `ServerConfig` (the field the claims touch). -/
structure ServerConfig where
  localDiskCacheRoot : Str
deriving DecidableEq

/-- `getLocalGitRepositoryPath` (managed_repository.go):
`filepath.Join(config.LocalDiskCacheRoot, u.Host, stripGitSuffixes(u.Path))`. -/
def getLocalGitRepositoryPath (config : ServerConfig) (u : GoURL) : Str :=
  goFilepathJoin [config.localDiskCacheRoot, u.host, stripGitSuffixes u.path]

/-- A `plumbing.Hash` ([20]byte), embedded as its list of 20 byte values. -/
abbrev Hash := List Nat

/-- One byte value of a hex digit, if the character is one. -/
def hexVal (c : Char) : Option Nat :=
  if '0' ≤ c ∧ c ≤ '9' then some (c.toNat - 48)
  else if 'a' ≤ c ∧ c ≤ 'f' then some (c.toNat - 87)
  else if 'A' ≤ c ∧ c ≤ 'F' then some (c.toNat - 55)
  else none

/-- Go `hex.DecodeString` as `plumbing.NewHash` uses it (the error is
discarded): the bytes decoded before the first bad pair; a trailing odd
character decodes to nothing. -/
def hexDecodeParts : Str → List Nat
  | c1 :: c2 :: rest =>
      match hexVal c1, hexVal c2 with
      | some a, some b => (16 * a + b) :: hexDecodeParts rest
      | _, _ => []
  | _ => []

/-- `plumbing.NewHash(s)`: copy the decoded bytes into a zeroed 20-byte
array. -/
def newHash (s : Str) : Hash :=
  (hexDecodeParts s ++ List.replicate 20 0).take 20

/-- The local bare repository as go-git sees it: the references and objects
that resolve, and those whose lookup fails with an error other than
not-found. -/
structure LocalGit where
  refs : List (Str × Hash) := []
  refErrs : List Str := []
  objects : List Hash := []
  objErrs : List Hash := []
deriving DecidableEq

/-- Outcome of a go-git `Reference`/`Object` lookup. -/
inductive Lookup3 (α : Type) where
  | found (value : α)
  | notFound
  | errored
deriving DecidableEq

/-- `g.Reference(name, true)`: the resolved reference, or
`plumbing.ErrReferenceNotFound`, or another error. -/
def gitReference (g : LocalGit) (name : Str) : Lookup3 Hash :=
  if name ∈ g.refErrs then .errored
  else
    match lookupStr g.refs name with
    | some h => .found h
    | none => .notFound

/-- `g.Object(plumbing.AnyObject, hash)`: found, or
`plumbing.ErrObjectNotFound`, or another error. -/
def gitObject (g : LocalGit) (h : Hash) : Lookup3 Unit :=
  if h ∈ g.objErrs then .errored
  else if h ∈ g.objects then .found () else .notFound

/-- The loop body of `hasAnyUpdate` over the advertised references. -/
def hasAnyUpdateLoop (g : LocalGit) : List (Str × Hash) → Except Str Bool
  | [] => .ok false
  | (name, h) :: rest =>
      match gitReference g name with
      | .notFound => .ok true
      | .errored => .error (str "cannot open the reference")
      | .found h2 => if h2 ≠ h then .ok true else hasAnyUpdateLoop g rest

/-- `hasAnyUpdate` (managed_repository.go): true when an advertised reference
is absent locally or resolves to a different hash; a failed `PlainOpen` or a
non-not-found lookup error propagates. -/
def hasAnyUpdate (gx : Except Str LocalGit) (refs : List (Str × Hash)) :
    Except Str Bool :=
  match gx with
  | .error e => .error (str "cannot open the local cached repository: " ++ e)
  | .ok g => hasAnyUpdateLoop g refs

/-- The first loop of `hasAllWants`, over the wanted object hashes. -/
def hasAllWantsHashLoop (g : LocalGit) : List Hash → Except Str Bool
  | [] => .ok true
  | h :: rest =>
      match gitObject g h with
      | .notFound => .ok false
      | .errored => .error (str "error while looking up an object for want check")
      | .found _ => hasAllWantsHashLoop g rest

/-- The second loop of `hasAllWants`, over the wanted reference names. -/
def hasAllWantsRefLoop (g : LocalGit) : List Str → Except Str Bool
  | [] => .ok true
  | name :: rest =>
      match gitReference g name with
      | .notFound => .ok false
      | .errored => .error (str "error while looking up a reference for want check")
      | .found _ => hasAllWantsRefLoop g rest

/-- `hasAllWants` (managed_repository.go): every wanted hash resolves to an
object and every wanted name to a reference; not-found is `false`, not an
error; other lookup errors propagate. -/
def hasAllWants (gx : Except Str LocalGit) (hashes : List Hash)
    (refs : List Str) : Except Str Bool :=
  match gx with
  | .error e => .error (str "cannot open the local cached repository: " ++ e)
  | .ok g =>
      match hasAllWantsHashLoop g hashes with
      | .error e => .error e
      | .ok false => .ok false
      | .ok true => hasAllWantsRefLoop g refs

/-- `managedRepository` (the fields the claims touch; `lastUpdate` is a
`time.Time` embedded as a tick count whose zero value, 0, is Go's zero
`time.Time`). -/
structure ManagedRepository where
  localDiskPath : Str
  lastUpdate : Nat := 0
  upstreamURL : GoURL
  config : ServerConfig
  isPublic : Bool
  accessList : List Str
deriving DecidableEq

/-- `createManagedRepository` (managed_repository.go): fix the URL, compute
the local path, start public with an empty access list, and flip to private
with the creating credential as sole entry when `auth` is non-empty. -/
def createManagedRepository (config : ServerConfig) (u0 : GoURL) (auth : Str) :
    ManagedRepository :=
  let u := urlFixer u0
  let localRepositoryPath := getLocalGitRepositoryPath config u
  let repository : ManagedRepository :=
    { localDiskPath := localRepositoryPath
      upstreamURL := u
      config := config
      isPublic := true
      accessList := [] }
  if auth ≠ [] then
    { repository with isPublic := false, accessList := repository.accessList ++ [auth] }
  else repository

/-- `LastUpdateTime` (managed_repository.go): reads `lastUpdate` under the
shared lock. -/
def LastUpdateTime (r : ManagedRepository) : Nat := r.lastUpdate

/-- The external effects one `fetchUpstream` call observes: the `PlainOpen`
result and the terminal errors of the two `git fetch` subprocesses. -/
structure FetchEnv where
  openRes : Except Str LocalGit
  headsFetchErr : Option Str
  mirrorFetchErr : Option Str

/-- `fetchUpstream` (managed_repository.go): open the cached repository; if
`HEAD` is not found, first fetch heads and changes; then fetch the mirror.
The returned pair is the repository record after the call (no field of it is
ever written) and the returned error. -/
def fetchUpstream (r : ManagedRepository) (env : FetchEnv) :
    ManagedRepository × Option Str :=
  match env.openRes with
  | .error e => (r, some (str "cannot open the local cached repository: " ++ e))
  | .ok g =>
      let splitGitFetch := gitReference g (str "HEAD") = .notFound
      let err : Option Str := if splitGitFetch then env.headsFetchErr else none
      let err : Option Str :=
        match err with
        | none => env.mirrorFetchErr
        | some e => some e
      (r, err)

/-- Outcome of `os.Stat` on the local path. -/
inductive StatResult where
  | present
  | notExist
  | statError (msg : Str)
deriving DecidableEq

/-- The git commands `open` runs on a fresh directory (managed_repository.go,
in order). -/
def openGitCommands (r : ManagedRepository) : List (List Str) :=
  [[str "init", str "--bare"],
   [str "config", str "protocol.version", str "2"],
   [str "config", str "uploadpack.allowfilter", str "1"],
   [str "config", str "uploadpack.allowrefinwant", str "1"],
   [str "config", str "repack.writebitmaps", str "1"],
   [str "config", str "http.version", str "HTTP/1.1"],
   [str "remote", str "add", str "--mirror=fetch", str "origin",
    r.upstreamURL.scheme ++ str "://" ++ r.upstreamURL.host ++ r.upstreamURL.path]]

/-- `open` (managed_repository.go): on a stat error other than not-exist,
fail; on not-exist, create the directory (failing if that fails) and run the
init/config/remote git commands, whose results (`gitResults`) the source
discards; if the path exists, do nothing.  Returns the error and the git
commands run. -/
def openRepo (r : ManagedRepository) (stat : StatResult) (mkdirErr : Option Str)
    (gitResults : List (Option Str)) : Option Str × List (List Str) :=
  match stat with
  | .present => (none, [])
  | .statError m =>
      (some (str "error while initializing local Git repoitory: " ++ m), [])
  | .notExist =>
      match mkdirErr with
      | some m => (some (str "cannot create a cache dir: " ++ m), [])
      | none =>
          let _ := gitResults
          (none, openGitCommands r)

/-- A `gitprotocolio.ProtocolV2RequestChunk` (the fields this program reads:
the command name of the first chunk, and each chunk's argument). -/
structure V2RequestChunk where
  command : Str := []
  argument : Option Str := none
deriving DecidableEq

/-- A `gitprotocolio.ProtocolV2ResponseChunk` (the field this program reads:
the response payload). -/
structure V2ResponseChunk where
  response : Option Str := none
deriving DecidableEq

/-- The fold of `parseLsRefsResponse` (unnamed dispatcher file) over the
upstream response chunks, building the name-to-hash map. -/
def parseLsRefsResponseLoop (acc : List (Str × Hash)) :
    List V2ResponseChunk → Except Str (List (Str × Hash))
  | [] => .ok acc
  | ch :: rest =>
      match ch.response with
      | none => parseLsRefsResponseLoop acc rest
      | some s =>
          match goSplit s ' ' with
          | s0 :: s1 :: _ =>
              parseLsRefsResponseLoop (mapInsert acc (goTrimSpace s1) (newHash s0)) rest
          | _ => .error (str "cannot parse the upstream ls-refs response")

/-- `parseLsRefsResponse`: each payload line `hash name` becomes a map entry
`trim(name) = NewHash(hash)`; a line without at least two space-separated
components is an error. -/
def parseLsRefsResponse (chunks : List V2ResponseChunk) :
    Except Str (List (Str × Hash)) :=
  parseLsRefsResponseLoop [] chunks

/-- The fold of `parseFetchWants` over the command's chunks, collecting
`want <hash>` and `want-ref <name>` arguments in order. -/
def parseFetchWantsLoop (hashes : List Hash) (refs : List Str) :
    List V2RequestChunk → Except Str (List Hash × List Str)
  | [] => .ok (hashes, refs)
  | ch :: rest =>
      match ch.argument with
      | none => parseFetchWantsLoop hashes refs rest
      | some s =>
          if (str "want ").isPrefixOf s then
            match goSplit s ' ' with
            | _ :: s1 :: _ =>
                parseFetchWantsLoop (hashes ++ [newHash (goTrimSpace s1)]) refs rest
            | _ => .error (str "cannot parse the fetch request")
          else if (str "want-ref ").isPrefixOf s then
            match goSplit s ' ' with
            | _ :: s1 :: _ =>
                parseFetchWantsLoop hashes (refs ++ [goTrimSpace s1]) rest
            | _ => .error (str "cannot parse the fetch request")
          else parseFetchWantsLoop hashes refs rest

/-- `parseFetchWants` (unnamed dispatcher file). -/
def parseFetchWants (chunks : List V2RequestChunk) :
    Except Str (List Hash × List Str) :=
  parseFetchWantsLoop [] [] chunks

/-- One fired case of the want-wait loop's `select`: client cancellation, the
background fetch publishing its terminal error, or the 1 s timer.  The two
cases that re-evaluate `hasAllWants` carry the local repository state at that
instant (the concurrent fetch is changing it). -/
inductive WaitEvent where
  | ctxDone (e : Str)
  | fetchDone (ferr : Option Str) (g : Except Str LocalGit)
  | tick (g : Except Str LocalGit)

/-- What one dispatched command did: whether `lsRefsUpstream` was called,
whether a detached `fetchUpstream` goroutine was launched, whether
`serveFetchLocal` ran, the response chunks written, and the returned error. -/
structure CmdOutcome where
  upstreamLsRefs : Bool := false
  bgFetch : Bool := false
  served : Bool := false
  written : List V2ResponseChunk := []
  err : Option Str := none
deriving DecidableEq

/-- The external effects one `handleV2Command` call observes. -/
structure V2Env where
  upstream : Except Str (List V2ResponseChunk)
  lsRefsLocal : Except Str LocalGit
  fetchLocal : Except Str LocalGit
  events : List WaitEvent
  serveResult : Option Str

/-- The want-wait `for`/`select` loop of the `fetch` branch (unnamed
dispatcher file): cancellation returns its error; fetch completion
re-evaluates `hasAllWants` and either serves locally or returns the fetch's
error (possibly nil); a tick re-evaluates `hasAllWants` and serves when
satisfied, else keeps waiting.  `none` means no further case fired (the Go
loop is still blocked). -/
def waitLoop (hashes : List Hash) (refs : List Str) (serveResult : Option Str) :
    List WaitEvent → Option CmdOutcome
  | [] => none
  | .ctxDone e :: _ => some { bgFetch := true, err := some e }
  | .fetchDone ferr g :: _ =>
      match hasAllWants g hashes refs with
      | .error checkErr => some { bgFetch := true, err := some checkErr }
      | .ok false => some { bgFetch := true, err := ferr }
      | .ok true => some { bgFetch := true, served := true, err := serveResult }
  | .tick g :: rest =>
      match hasAllWants g hashes refs with
      | .error e => some { bgFetch := true, err := some e }
      | .ok true => some { bgFetch := true, served := true, err := serveResult }
      | .ok false => waitLoop hashes refs serveResult rest

/-- The `ls-refs` branch of `handleV2Command`: always proxy to upstream,
parse the advertisement, launch a detached fetch when it reveals an update,
then write the upstream chunks to the client. -/
def handleLsRefs (env : V2Env) : CmdOutcome :=
  match env.upstream with
  | .error e => { upstreamLsRefs := true, err := some e }
  | .ok resp =>
      match parseLsRefsResponse resp with
      | .error e => { upstreamLsRefs := true, err := some e }
      | .ok refs =>
          match hasAnyUpdate env.lsRefsLocal refs with
          | .error e => { upstreamLsRefs := true, err := some e }
          | .ok hasUpdate =>
              { upstreamLsRefs := true, bgFetch := hasUpdate, written := resp }

/-- The `fetch` branch of `handleV2Command`: parse the wants; serve locally at
once when they are all present; otherwise launch the fetch goroutine and run
the want-wait loop, serving locally only after a re-evaluation succeeds. -/
def handleFetch (env : V2Env) (command : List V2RequestChunk) :
    Option CmdOutcome :=
  match parseFetchWants command with
  | .error e => some { err := some e }
  | .ok (wantHashes, wantRefs) =>
      match hasAllWants env.fetchLocal wantHashes wantRefs with
      | .error e => some { err := some e }
      | .ok true => some { served := true, err := env.serveResult }
      | .ok false => waitLoop wantHashes wantRefs env.serveResult env.events

/-- `handleV2Command` (unnamed dispatcher file).  The Go code indexes
`command[0]`; `parseAllCommands` never yields an empty command, and on `[]`
this embedding returns `none`. -/
def handleV2Command (env : V2Env) (command : List V2RequestChunk) :
    Option CmdOutcome :=
  match command with
  | [] => none
  | c0 :: _ =>
      if c0.command = str "ls-refs" then some (handleLsRefs env)
      else if c0.command = str "fetch" then handleFetch env command
      else some { err := some (str "unknown command") }

/-- `goproxy.ContentTypeText`. -/
def contentTypeText : Str := str "text/plain"

/-- An HTTP response as `goproxy.NewResponse` builds one. -/
structure HttpResponse where
  status : Nat
  headers : List (Str × Str)
  body : Str
deriving DecidableEq

/-- `goproxy.NewResponse(r, contentType, status, body)`: status, a lone
`Content-Type` header, and the body string. -/
def newResponse (contentType : Str) (status : Nat) (body : Str) : HttpResponse :=
  { status := status
    headers := [(str "Content-Type", contentType)]
    body := body }

/-- The pkt-line advertisement handleInfoRefs writes for a cached mirror.
Modelled from the spec: the pkt-line framing of the
`InfoRefsResponseChunk`s is done by the external gitprotocolio library and a
`writePacket` helper whose source is not under src/; the spec fixes the
sequence `version 2`, `ls-refs`, `fetch=filter shallow`, `server-option`,
end-of-request. -/
def infoRefsAdvertisement : Str :=
  str "000eversion 2\n000cls-refs\n0019fetch=filter shallow\n0012server-option\n0000"

/-- The process-wide `managedRepos` map, keyed by local cache path. -/
abbrev Registry := List (Str × ManagedRepository)

/-- `managedRepositoryExists` (managed_repository.go). -/
def managedRepositoryExists (config : ServerConfig) (reg : Registry)
    (u : GoURL) : Bool :=
  (lookupStr reg (getLocalGitRepositoryPath config u)).isSome

/-- `getManagedRepository` (managed_repository.go). -/
def getManagedRepository (config : ServerConfig) (reg : Registry) (u : GoURL) :
    Option ManagedRepository :=
  lookupStr reg (getLocalGitRepositoryPath config u)

/-- `handleInfoRefs` (handlers.go).  Inputs are the request's
`service` query parameter, its URL and its `Authorization` header; `none`
means the request is passed through to the upstream host unchanged. -/
def handleInfoRefs (config : ServerConfig) (reg : Registry) (u : GoURL)
    (service : Str) (authHeader : Str) : Option HttpResponse :=
  if service ≠ str "git-upload-pack" then
    some (newResponse contentTypeText 400 (str "accepts only git-fetch"))
  else if ¬ managedRepositoryExists config reg u then
    none
  else
    match getManagedRepository config reg u with
    | none =>
        some (newResponse contentTypeText 500
          (str "could not verify if repository exists"))
    | some repository =>
        if repository.isPublic = false ∧ authHeader = [] then
          some (newResponse contentTypeText 401
            (str "unauthorized - please send basic auth credentials"))
        else
          some (newResponse (str "application/x-git-upload-pack-advertisement")
            200 infoRefsAdvertisement)

/-- `handleGitReceivePack` (handlers.go). -/
def handleGitReceivePack : HttpResponse :=
  newResponse contentTypeText 400 (str "git-receive-pack is not supported")

/-- A character of the class `[A-Za-z0-9\\+=]` of the Basic-auth pattern in
handlers.go (the raw-string regex escapes a literal backslash, so the class
admits letters, digits, backslash, `+` and `=`). -/
def isBasicClassChar (c : Char) : Bool :=
  c.isAlpha || c.isDigit || c = '\\' || c = '+' || c = '='

/-- Whether the `Authorization` header matches the anchored pattern
`^Basic ([A-Za-z0-9\\+=]*)$` of handlers.go. -/
def basicAuthMatch (h : Str) : Bool :=
  (str "Basic ").isPrefixOf h && (h.drop 6).all isBasicClassChar

/-- The credential `handleGitUploadPack` extracts:
`regex.FindString(r.Header.Get("Authorization"))`.  `FindString` yields the
text of the whole (anchored) match — the entire header — when the header
matches, and the empty string otherwise. -/
def extractBasicAuth (h : Str) : Str :=
  if basicAuthMatch h then h else []

/-- The mirror-selection step of `handleGitUploadPack` (handlers.go lines
95-98): reuse the registered mirror, or create one with the extracted
credential. -/
def uploadPackRepoFor (config : ServerConfig) (reg : Registry) (u : GoURL)
    (authHeader : Str) : ManagedRepository :=
  match getManagedRepository config reg u with
  | some repository => repository
  | none => createManagedRepository config u (extractBasicAuth authHeader)

/-- Status of an optional HTTP response. -/
def respStatus : Option HttpResponse → Option Nat
  | some r => some r.status
  | none => none

/-- A header value of an optional HTTP response. -/
def respHeader (r? : Option HttpResponse) (name : Str) : Option Str :=
  match r? with
  | some r => lookupStr r.headers name
  | none => none

/-- Whether the body of an optional HTTP response contains a substring. -/
def respBodyContains (r? : Option HttpResponse) (needle : Str) : Bool :=
  match r? with
  | some r => goContains r.body needle
  | none => false

/-- Spec-side: the one trailing service suffix `urlFixer` removes from a
path (empty when none matches). -/
def matchedUploadSuffix (p : Str) : Str :=
  if goHasSuffix p (str "/info/refs") then str "/info/refs"
  else if goHasSuffix p (str "/git-receive-pack") then str "/git-receive-pack"
  else if goHasSuffix p (str "/git-upload-pack") then str "/git-upload-pack"
  else []

/-- Spec-side (claim C5's wording): strip the four strings as *suffixes* of
the path, each at most once. -/
def specStripSuffixes (p : Str) : Str :=
  goTrimSuffix
    (goTrimSuffix
      (goTrimSuffix (goTrimSuffix p (str "/info/refs")) (str "/git-receive-pack"))
      (str "/git-upload-pack"))
    (str ".git")

/-- Whether one advertised reference reveals an update against the local
state: absent locally, or resolving to a different hash. -/
def refUpdated (g : LocalGit) (p : Str × Hash) : Bool :=
  match gitReference g p.1 with
  | .notFound => true
  | .found h2 => decide (h2 ≠ p.2)
  | .errored => false

/-! Concrete sample values used by witnesses and counterexamples. -/

/-- A sample server configuration. -/
def cfgEx : ServerConfig := ⟨str "/cache"⟩

/-- A sample upstream URL. -/
def uEx : GoURL := { host := str "example.com", path := str "/org/repo" }

/-- A sample URL whose path contains `.git` in the middle, not as a suffix. -/
def uStripEx : GoURL := { host := str "example.com", path := str "/x.gity" }

/-- A private mirror, created with a non-empty credential. -/
def privateRepoEx : ManagedRepository :=
  createManagedRepository cfgEx uEx (str "Basic dG9rZW4=")

/-- A registry holding only `privateRepoEx`. -/
def regEx : Registry := [(getLocalGitRepositoryPath cfgEx uEx, privateRepoEx)]

/-- A local repository with no references and no objects. -/
def emptyGitEx : LocalGit := {}

/-- The hash of the sample `want`. -/
def wantAHash : Hash := newHash (str "aaaaaaaaaaaaaaaaaaaaaaaaaaaaaaaaaaaaaaaa")

/-- A local repository holding the sample wanted object. -/
def gitWithA : LocalGit := { objects := [wantAHash] }

/-- A `fetch` command wanting one object. -/
def fetchCmdEx : List V2RequestChunk :=
  [{ command := str "fetch" },
   { argument := some (str "want aaaaaaaaaaaaaaaaaaaaaaaaaaaaaaaaaaaaaaaa") }]

/-- Environment for the C1 counterexample: the background fetch completes
with a nil error while the want is still missing locally. -/
def c1CexEnv : V2Env :=
  { upstream := .ok []
    lsRefsLocal := .ok emptyGitEx
    fetchLocal := .ok emptyGitEx
    events := [.fetchDone none (.ok emptyGitEx)]
    serveResult := none }

/-- Environment for the C1 witness: one unsatisfied tick, then the fetch
completes and the want has materialized. -/
def c1WitnessEnv : V2Env :=
  { upstream := .ok []
    lsRefsLocal := .ok emptyGitEx
    fetchLocal := .ok emptyGitEx
    events := [.tick (.ok emptyGitEx), .fetchDone none (.ok gitWithA)]
    serveResult := none }

/-- A sample advertised reference name. -/
def mainRefName : Str := str "refs/heads/main"

/-- The hash the sample advertisement carries. -/
def hashB : Hash := newHash (str "bbbbbbbbbbbbbbbbbbbbbbbbbbbbbbbbbbbbbbbb")

/-- An `ls-refs` command. -/
def lsRefsCmdEx : List V2RequestChunk := [{ command := str "ls-refs" }]

/-- A sample upstream `ls-refs` advertisement with one reference line. -/
def upstreamChunksEx : List V2ResponseChunk :=
  [{ response := some (str "bbbbbbbbbbbbbbbbbbbbbbbbbbbbbbbbbbbbbbbb refs/heads/main\n") }]

/-- Environment for the C6 witness: the advertisement reveals a reference the
empty local mirror lacks. -/
def c6WitnessEnv : V2Env :=
  { upstream := .ok upstreamChunksEx
    lsRefsLocal := .ok emptyGitEx
    fetchLocal := .ok emptyGitEx
    events := []
    serveResult := none }

/-! ## Helper lemmas -/

theorem goTrimSuffix_append (p s : Str) (h : goHasSuffix p s = true) :
    goTrimSuffix p s ++ s = p := by
  have hd : p.drop (p.length - s.length) = s := eq_of_beq h
  calc goTrimSuffix p s ++ s
      = p.take (p.length - s.length) ++ p.drop (p.length - s.length) := by
        rw [goTrimSuffix, if_pos h, hd]
    _ = p := List.take_append_drop _ _

theorem gitReference_errored_iff (g : LocalGit) (n : Str) :
    gitReference g n = .errored ↔ n ∈ g.refErrs := by
  unfold gitReference
  by_cases hn : n ∈ g.refErrs
  · simp [hn]
  · simp only [hn, if_false]
    cases lookupStr g.refs n <;> simp [hn]

theorem refUpdated_iff (g : LocalGit) (p : Str × Hash) :
    refUpdated g p = true ↔
      (gitReference g p.1 = .notFound ∨
       ∃ h2, gitReference g p.1 = .found h2 ∧ h2 ≠ p.2) := by
  unfold refUpdated
  cases hr : gitReference g p.1 with
  | found h2 => simp [hr]
  | notFound => simp [hr]
  | errored => simp [hr]

theorem hasAnyUpdateLoop_clean (g : LocalGit) (refs : List (Str × Hash))
    (hclean : ∀ p ∈ refs, p.1 ∉ g.refErrs) :
    hasAnyUpdateLoop g refs = .ok (refs.any (refUpdated g)) := by
  induction refs with
  | nil => rfl
  | cons p rest ih =>
    obtain ⟨n, h⟩ := p
    have hn : n ∉ g.refErrs := hclean (n, h) (List.mem_cons_self _ _)
    have hrest := ih (fun q hq => hclean q (List.mem_cons_of_mem _ hq))
    cases hr : gitReference g n with
    | errored => exact absurd ((gitReference_errored_iff g n).mp hr) hn
    | notFound => simp [hasAnyUpdateLoop, hr, refUpdated]
    | found h2 =>
        by_cases he : h2 = h
        · subst he
          simp [hasAnyUpdateLoop, hr, refUpdated, hrest]
        · simp [hasAnyUpdateLoop, hr, refUpdated, he]

theorem waitLoop_skip (hashes : List Hash) (refs : List Str)
    (serveResult : Option Str) (pre tail : List WaitEvent)
    (hpre : ∀ ev ∈ pre, ∃ g, ev = .tick g ∧ hasAllWants g hashes refs = .ok false) :
    waitLoop hashes refs serveResult (pre ++ tail) =
      waitLoop hashes refs serveResult tail := by
  induction pre with
  | nil => rfl
  | cons ev rest ih =>
    obtain ⟨g, rfl, hg⟩ := hpre ev (List.mem_cons_self _ _)
    have htail := ih (fun e he => hpre e (List.mem_cons_of_mem _ he))
    simpa [waitLoop, hg] using htail

/-! ## The claims -/

/-- C2 (code_bug evidence): `fetchUpstream` never writes any field of the
mirror record — in particular not `lastUpdate` — and a freshly created mirror
carries the zero time, so `LastUpdateTime` never reports a fetch completion
time. -/
theorem fetchUpstream_never_records_time :
    (∀ (r : ManagedRepository) (env : FetchEnv), (fetchUpstream r env).1 = r) ∧
    (∀ (config : ServerConfig) (u : GoURL) (auth : Str),
      LastUpdateTime (createManagedRepository config u auth) = 0) := by
  constructor
  · intro r env
    unfold fetchUpstream
    cases env.openRes <;> rfl
  · intro config u auth
    by_cases h : auth = [] <;> simp [createManagedRepository, LastUpdateTime, h]

/-- C3: a mirror created by the registry is public exactly when the creating
credential is empty, and its initial access list is empty for an
unauthenticated creation and exactly the creating credential otherwise. -/
theorem createManagedRepository_access (config : ServerConfig) (u : GoURL)
    (auth : Str) :
    ((createManagedRepository config u auth).isPublic = true ↔ auth = []) ∧
    (createManagedRepository config u auth).accessList =
      (if auth = [] then [] else [auth]) := by
  by_cases h : auth = [] <;> simp [createManagedRepository, h]

/-- C4 (counterexample): on the header `Basic abc` — which matches the
code's Basic-auth pattern — the extracted credential is the whole header,
not the capture group `abc`. -/
theorem extractBasicAuth_not_captureGroup :
    extractBasicAuth (str "Basic abc") = str "Basic abc" ∧
    str "Basic abc" ≠ str "abc" := by
  exact ⟨rfl, by decide⟩

/-- C4 (amended): the extracted credential equals the *entire* Authorization
header whenever the header is `Basic ` followed by characters of the class
`[A-Za-z0-9\\+=]` (which also admits a backslash), and is empty otherwise. -/
theorem extractBasicAuth_amended (h : Str) :
    ((∃ t, h = str "Basic " ++ t ∧ ∀ c ∈ t, isBasicClassChar c = true) →
      extractBasicAuth h = h) ∧
    ((∀ t, h = str "Basic " ++ t → ∃ c ∈ t, isBasicClassChar c = false) →
      extractBasicAuth h = []) := by
  constructor
  · rintro ⟨t, rfl, hall⟩
    have hmatch : basicAuthMatch (str "Basic " ++ t) = true := by
      unfold basicAuthMatch
      rw [Bool.and_eq_true]
      constructor
      · exact List.isPrefixOf_iff_prefix.mpr (List.prefix_append _ _)
      · have hdrop : (str "Basic " ++ t).drop 6 = t := List.drop_left (str "Basic ") t
        rw [hdrop]
        exact List.all_eq_true.mpr hall
    simp [extractBasicAuth, hmatch]
  · intro hbad
    by_cases hm : basicAuthMatch h = true
    · exfalso
      unfold basicAuthMatch at hm
      rw [Bool.and_eq_true] at hm
      obtain ⟨t, rfl⟩ := List.isPrefixOf_iff_prefix.mp hm.1
      have hdrop : (str "Basic " ++ t).drop 6 = t := List.drop_left (str "Basic ") t
      rw [hdrop] at hm
      obtain ⟨c, hc, hcf⟩ := hbad t rfl
      have := List.all_eq_true.mp hm.2 c hc
      rw [this] at hcf
      exact Bool.noConfusion hcf
    · simp [extractBasicAuth, hm]

/-- C4 (amended, witness): instantiated at the header `Basic abc`. -/
theorem extractBasicAuth_amended_witness :
    extractBasicAuth (str "Basic abc") = str "Basic abc" :=
  (extractBasicAuth_amended (str "Basic abc")).1 ⟨str "abc", by decide, by decide⟩

/-- C5 (counterexample): `stripGitSuffixes` is the all-occurrence replacer,
not a suffix strip — on the path `/x.gity` it differs from the suffix strip
and changes the local path accordingly — and it is not idempotent: a second
pass over `.g.gitit` strips again. -/
theorem stripGitSuffixes_not_suffix_strip :
    stripGitSuffixes (str "/x.gity") ≠ specStripSuffixes (str "/x.gity") ∧
    getLocalGitRepositoryPath cfgEx uStripEx ≠
      goFilepathJoin [cfgEx.localDiskCacheRoot, uStripEx.host,
        specStripSuffixes uStripEx.path] ∧
    stripGitSuffixes (stripGitSuffixes (str ".g.gitit")) ≠
      stripGitSuffixes (str ".g.gitit") := by
  refine ⟨by decide, by decide, by decide⟩

/-- C5 (amended): the local mirror path is
`join(cache_root, u.host, stripGitSuffixes(u.path))`, where
`stripGitSuffixes` deletes every occurrence (not only a trailing one) of the
four strings in one left-to-right pass; one such pass is not idempotent in
general. -/
theorem getLocalGitRepositoryPath_amended :
    (∀ (config : ServerConfig) (u : GoURL),
      getLocalGitRepositoryPath config u =
        goFilepathJoin [config.localDiskCacheRoot, u.host, stripGitSuffixes u.path]) ∧
    (∃ p, stripGitSuffixes (stripGitSuffixes p) ≠ stripGitSuffixes p) :=
  ⟨fun _ _ => rfl, ⟨str ".g.gitit", by decide⟩⟩

/-- C8: the canonicalized URL has scheme `https`, the input host, no
userinfo, no query, no fragment, and its path is the input path with the one
matching trailing service suffix removed. -/
theorem urlFixer_canonicalizes (u : GoURL) :
    (urlFixer u).scheme = str "https" ∧
    (urlFixer u).host = u.host ∧
    (urlFixer u).user = none ∧
    (urlFixer u).rawQuery = [] ∧
    (urlFixer u).fragment = [] ∧
    (urlFixer u).path ++ matchedUploadSuffix u.path = u.path := by
  unfold urlFixer matchedUploadSuffix
  by_cases h1 : goHasSuffix u.path (str "/info/refs") = true
  · simp [h1, goTrimSuffix_append _ _ h1]
  · by_cases h2 : goHasSuffix u.path (str "/git-receive-pack") = true
    · simp [h1, h2, goTrimSuffix_append _ _ h2]
    · by_cases h3 : goHasSuffix u.path (str "/git-upload-pack") = true
      · simp [h1, h2, h3, goTrimSuffix_append _ _ h3]
      · simp [h1, h2, h3]

/-- C9: when the Authorization header does not match the code's Basic-auth
pattern (for instance because its token holds `/`, `_` or `-`), the
extracted credential is empty, and a mirror created by that request is
public with an empty access list. -/
theorem uploadPackRepoFor_nonmatching_header (config : ServerConfig)
    (reg : Registry) (u : GoURL) (header : Str)
    (hmatch : basicAuthMatch header = false)
    (hmiss : getManagedRepository config reg u = none) :
    extractBasicAuth header = [] ∧
    (uploadPackRepoFor config reg u header).isPublic = true ∧
    (uploadPackRepoFor config reg u header).accessList = [] := by
  have he : extractBasicAuth header = [] := by simp [extractBasicAuth, hmatch]
  refine ⟨he, ?_, ?_⟩ <;>
    simp [uploadPackRepoFor, hmiss, he, createManagedRepository]

/-- C9 (witness): a credentialed request whose base64 token contains `/`
registers a public mirror with no access list. -/
theorem uploadPackRepoFor_nonmatching_header_witness :
    extractBasicAuth (str "Basic abc/def") = [] ∧
    (uploadPackRepoFor cfgEx [] uEx (str "Basic abc/def")).isPublic = true ∧
    (uploadPackRepoFor cfgEx [] uEx (str "Basic abc/def")).accessList = [] :=
  uploadPackRepoFor_nonmatching_header cfgEx [] uEx (str "Basic abc/def")
    (by decide) rfl

/-- C10: `open` fails only on a stat error other than not-exist or on a
failed directory creation; the git subprocess results are discarded, so the
outcome is the same whatever they are — in particular `open` returns nil
even if every git command fails. -/
theorem openRepo_error_conditions (r : ManagedRepository) (stat : StatResult)
    (mkdirErr : Option Str) (gitResults gitResults2 : List (Option Str)) :
    ((openRepo r stat mkdirErr gitResults).1 = none ↔
      stat = .present ∨ (stat = .notExist ∧ mkdirErr = none)) ∧
    openRepo r stat mkdirErr gitResults = openRepo r stat mkdirErr gitResults2 := by
  cases stat <;> cases mkdirErr <;> simp [openRepo]

/-- C7 (counterexample): for a registered private mirror and an
unauthenticated `info/refs` request, the reply is 401 with body
`unauthorized...`, but its content type is `text/plain` — not
`application/x-git-upload-pack-advertisement` — and it carries no
`WWW-Authenticate` header. -/
theorem handleInfoRefs_401_contentType_counterexample :
    respStatus (handleInfoRefs cfgEx regEx uEx (str "git-upload-pack") []) =
      some 401 ∧
    respHeader (handleInfoRefs cfgEx regEx uEx (str "git-upload-pack") [])
      (str "Content-Type") ≠
        some (str "application/x-git-upload-pack-advertisement") ∧
    respHeader (handleInfoRefs cfgEx regEx uEx (str "git-upload-pack") [])
      (str "WWW-Authenticate") = none ∧
    respBodyContains (handleInfoRefs cfgEx regEx uEx (str "git-upload-pack") [])
      (str "unauthorized") = true := by
  refine ⟨by decide, by decide, by decide, by decide⟩

/-- C7 (amended): every unauthenticated `info/refs?service=git-upload-pack`
request for a registered private mirror gets status 401, content type
`text/plain`, no `WWW-Authenticate` header, and a plain body containing
`unauthorized`. -/
theorem handleInfoRefs_private_unauthenticated (config : ServerConfig)
    (reg : Registry) (u : GoURL) (repository : ManagedRepository)
    (hfound : lookupStr reg (getLocalGitRepositoryPath config u) = some repository)
    (hpriv : repository.isPublic = false) :
    respStatus (handleInfoRefs config reg u (str "git-upload-pack") []) =
      some 401 ∧
    respHeader (handleInfoRefs config reg u (str "git-upload-pack") [])
      (str "Content-Type") = some contentTypeText ∧
    respHeader (handleInfoRefs config reg u (str "git-upload-pack") [])
      (str "WWW-Authenticate") = none ∧
    respBodyContains (handleInfoRefs config reg u (str "git-upload-pack") [])
      (str "unauthorized") = true := by
  have hmain : handleInfoRefs config reg u (str "git-upload-pack") [] =
      some (newResponse contentTypeText 401
        (str "unauthorized - please send basic auth credentials")) := by
    unfold handleInfoRefs managedRepositoryExists getManagedRepository
    rw [hfound]
    simp [hpriv]
  rw [hmain]
  refine ⟨rfl, by decide, by decide, by decide⟩

/-- C7 (amended, witness): instantiated at the sample private mirror. -/
theorem handleInfoRefs_private_unauthenticated_witness :
    respStatus (handleInfoRefs cfgEx regEx uEx (str "git-upload-pack") []) =
      some 401 ∧
    respHeader (handleInfoRefs cfgEx regEx uEx (str "git-upload-pack") [])
      (str "Content-Type") = some contentTypeText :=
  ⟨(handleInfoRefs_private_unauthenticated cfgEx regEx uEx privateRepoEx rfl
      (by decide)).1,
   (handleInfoRefs_private_unauthenticated cfgEx regEx uEx privateRepoEx rfl
      (by decide)).2.1⟩

/-- C1 (counterexample): a `fetch` whose only loop event is the background
fetch completing with a nil error while the want is still absent: the
command returns nil without invoking local serve (`served = false`), so
`upload-pack` is never run for this client. -/
theorem handleFetch_nilError_no_serve :
    hasAllWants (.ok emptyGitEx) [wantAHash] [] = .ok false ∧
    handleV2Command c1CexEnv fetchCmdEx =
      some { upstreamLsRefs := false, bgFetch := true, served := false,
             written := [], err := none } ∧
    (handleV2Command c1CexEnv fetchCmdEx).map CmdOutcome.served ≠ some true := by
  refine ⟨rfl, rfl, by decide⟩

/-- C1 (amended): in the want-wait loop, when the background fetch completes
`has-all-wants` is re-evaluated; if satisfied the loop exits and local serve
runs; if not satisfied the fetch's error (possibly nil) is returned and local
serve is *not* invoked; a lookup error during the re-evaluation is returned
likewise without serving. -/
theorem handleFetch_fetchDone (env : V2Env) (c0 : V2RequestChunk)
    (cs : List V2RequestChunk) (wantHashes : List Hash) (wantRefs : List Str)
    (pre rest : List WaitEvent) (ferr : Option Str) (g : Except Str LocalGit)
    (hcmd : c0.command = str "fetch")
    (hparse : parseFetchWants (c0 :: cs) = .ok (wantHashes, wantRefs))
    (hinit : hasAllWants env.fetchLocal wantHashes wantRefs = .ok false)
    (hev : env.events = pre ++ .fetchDone ferr g :: rest)
    (hpre : ∀ ev ∈ pre, ∃ gt, ev = .tick gt ∧
      hasAllWants gt wantHashes wantRefs = .ok false) :
    handleV2Command env (c0 :: cs) = some
      (match hasAllWants g wantHashes wantRefs with
       | .ok true => { bgFetch := true, served := true, err := env.serveResult }
       | .ok false => { bgFetch := true, served := false, err := ferr }
       | .error e => { bgFetch := true, served := false, err := some e }) := by
  have hne : ¬ (c0.command = str "ls-refs") := by
    rw [hcmd]; decide
  have hskip := waitLoop_skip wantHashes wantRefs env.serveResult pre
    (.fetchDone ferr g :: rest) hpre
  simp only [handleV2Command, if_neg hne, if_pos hcmd, handleFetch, hparse,
    hinit, hev, hskip]
  cases hg : hasAllWants g wantHashes wantRefs with
  | error e => simp [waitLoop, hg]
  | ok b => cases b <;> simp [waitLoop, hg]

/-- C1 (amended, witness): one unsatisfied tick, then the fetch completes
with the want materialized; the loop exits and local serve runs. -/
theorem handleFetch_fetchDone_witness :
    handleV2Command c1WitnessEnv fetchCmdEx =
      some { upstreamLsRefs := false, bgFetch := true, served := true,
             written := [], err := none } := by
  have h := handleFetch_fetchDone c1WitnessEnv { command := str "fetch" }
    [{ argument := some (str "want aaaaaaaaaaaaaaaaaaaaaaaaaaaaaaaaaaaaaaaa") }]
    [wantAHash] [] [.tick (.ok emptyGitEx)] [] none (.ok gitWithA)
    rfl rfl rfl rfl
    (by
      intro ev hev
      rw [List.mem_singleton] at hev
      subst hev
      exact ⟨.ok emptyGitEx, rfl, rfl⟩)
  exact h

/-- C6: an `ls-refs` command always calls `lsRefsUpstream` (whatever the
environment, it is never answered purely from the local mirror, and local
serve never runs for it); and on a cleanly-parsed advertisement evaluated
against a local state without lookup errors, the upstream chunks are written
back unchanged while a detached background fetch is launched exactly when
some advertised reference is absent locally or carries a different local
hash.  The launch is fire-and-forget: the written response and the nil error
do not depend on any fetch result. -/
theorem handleLsRefs_proxies_and_updates (env : V2Env) (c0 : V2RequestChunk)
    (cs : List V2RequestChunk) (chunks : List V2ResponseChunk)
    (refsList : List (Str × Hash)) (g : LocalGit)
    (hcmd : c0.command = str "ls-refs")
    (hup : env.upstream = .ok chunks)
    (hparse : parseLsRefsResponse chunks = .ok refsList)
    (hg : env.lsRefsLocal = .ok g)
    (hclean : ∀ p ∈ refsList, p.1 ∉ g.refErrs) :
    (∀ (env2 : V2Env) (out : CmdOutcome),
      handleV2Command env2 (c0 :: cs) = some out →
        out.upstreamLsRefs = true ∧ out.served = false) ∧
    (∃ out, handleV2Command env (c0 :: cs) = some out ∧
      out.written = chunks ∧ out.err = none ∧
      (out.bgFetch = true ↔ ∃ p ∈ refsList,
        gitReference g p.1 = .notFound ∨
        ∃ h2, gitReference g p.1 = .found h2 ∧ h2 ≠ p.2)) := by
  constructor
  · intro env2 out hout
    simp only [handleV2Command, if_pos hcmd, Option.some.injEq] at hout
    subst hout
    cases henv : env2.upstream with
    | error e => simp [handleLsRefs, henv]
    | ok resp =>
        cases hp : parseLsRefsResponse resp with
        | error e => simp [handleLsRefs, henv, hp]
        | ok refs2 =>
            cases hu : hasAnyUpdate env2.lsRefsLocal refs2 with
            | error e => simp [handleLsRefs, henv, hp, hu]
            | ok b => simp [handleLsRefs, henv, hp, hu]
  · have hloop := hasAnyUpdateLoop_clean g refsList hclean
    have hmain : handleV2Command env (c0 :: cs) =
        some { upstreamLsRefs := true, bgFetch := refsList.any (refUpdated g),
               served := false, written := chunks, err := none } := by
      simp only [handleV2Command, if_pos hcmd, handleLsRefs, hup, hparse,
        hasAnyUpdate, hg, hloop]
    refine ⟨_, hmain, rfl, rfl, ?_⟩
    constructor
    · intro hany
      obtain ⟨p, hp, hupd⟩ := List.any_eq_true.mp hany
      exact ⟨p, hp, (refUpdated_iff g p).mp hupd⟩
    · rintro ⟨p, hp, hupd⟩
      exact List.any_eq_true.mpr ⟨p, hp, (refUpdated_iff g p).mpr hupd⟩

/-- C6 (witness): the sample advertisement names `refs/heads/main`, absent
from the empty local mirror, so the upstream chunks are echoed and a
background fetch is launched. -/
theorem handleLsRefs_proxies_and_updates_witness :
    ∃ out, handleV2Command c6WitnessEnv lsRefsCmdEx = some out ∧
      out.written = upstreamChunksEx ∧ out.err = none ∧ out.bgFetch = true := by
  have h := handleLsRefs_proxies_and_updates c6WitnessEnv
    { command := str "ls-refs" } [] upstreamChunksEx [(mainRefName, hashB)]
    emptyGitEx rfl rfl rfl rfl
    (by intro p hp; simp [emptyGitEx])
  obtain ⟨out, hout, hw, he, hiff⟩ := h.2
  refine ⟨out, hout, hw, he, hiff.mpr ?_⟩
  exact ⟨(mainRefName, hashB), List.mem_singleton.mpr rfl, Or.inl rfl⟩
